import Mathlib

/-!
# Verification of the rust-blockchain chain store, validator and mining engine

A shallow embedding of `src/blockchain.rs` (the `tokio_postgres`-backed
implementation used by `main.rs`).  The relational store is modelled as the
list of its rows in insertion order; `query_one` succeeds exactly when one row
matches; uniqueness constraints of the `blocks` table guard `INSERT`.  The
`i64` columns are modelled as `Int` (no claim depends on 64-bit overflow).
The parallel miner `find_hash` is modelled as a labelled transition system
whose atomic steps are exactly the individual mutex-guarded accesses of the
source; a call returning is reachability of a terminal state.
-/

set_option maxRecDepth 1000000
set_option maxHeartbeats 2000000

namespace RustBlockchain

/-! ## SHA-256 over byte lists -/

/-- 32-bit truncation, modelling the `u32` wrap-around arithmetic inside SHA-256. -/
def w32 (n : Nat) : Nat := n % 4294967296

/-- 32-bit right rotation (input assumed `< 2^32`). -/
def rotr (k x : Nat) : Nat := w32 ((x >>> k) ||| (x <<< (32 - k)))

def bigS0 (x : Nat) : Nat := rotr 2 x ^^^ rotr 13 x ^^^ rotr 22 x

def bigS1 (x : Nat) : Nat := rotr 6 x ^^^ rotr 11 x ^^^ rotr 25 x

def smallS0 (x : Nat) : Nat := rotr 7 x ^^^ rotr 18 x ^^^ (x >>> 3)

def smallS1 (x : Nat) : Nat := rotr 17 x ^^^ rotr 19 x ^^^ (x >>> 10)

/-- The 64 SHA-256 round constants, in decimal. -/
def sha256K : List Nat :=
  [1116352408, 1899447441, 3049323471, 3921009573, 961987163, 1508970993,
   2453635748, 2870763221, 3624381080, 310598401, 607225278, 1426881987,
   1925078388, 2162078206, 2614888103, 3248222580, 3835390401, 4022224774,
   264347078, 604807628, 770255983, 1249150122, 1555081692, 1996064986,
   2554220882, 2821834349, 2952996808, 3210313671, 3336571891, 3584528711,
   113926993, 338241895, 666307205, 773529912, 1294757372, 1396182291,
   1695183700, 1986661051, 2177026350, 2456956037, 2730485921, 2820302411,
   3259730800, 3345764771, 3516065817, 3600352804, 4094571909, 275423344,
   430227734, 506948616, 659060556, 883997877, 958139571, 1322822218,
   1537002063, 1747873779, 1955562222, 2024104815, 2227730452, 2361852424,
   2428436474, 2756734187, 3204031479, 3329325298]

/-- The SHA-256 initial hash state, in decimal. -/
def sha256InitHash : List Nat :=
  [1779033703, 3144134277, 1013904242, 2773480762,
   1359893119, 2600822924, 528734635, 1541459225]

/-- The 8-byte big-endian encoding of `n` (the length field of SHA-256 padding). -/
def beBytes8 (n : Nat) : List Nat :=
  [n >>> 56 % 256, n >>> 48 % 256, n >>> 40 % 256, n >>> 32 % 256,
   n >>> 24 % 256, n >>> 16 % 256, n >>> 8 % 256, n % 256]

/-- SHA-256 message padding: `0x80`, zeros to 56 mod 64, then the bit length big-endian. -/
def sha256Pad (msg : List Nat) : List Nat :=
  msg ++ [128] ++ List.replicate ((64 + 55 - msg.length % 64) % 64) 0 ++ beBytes8 (8 * msg.length)

/-- Big-endian 32-bit words from a byte list (length assumed a multiple of 4). -/
def bytesToWords : List Nat → List Nat
  | a :: b :: c :: d :: rest => (a * 16777216 + b * 65536 + c * 256 + d) :: bytesToWords rest
  | _ => []

/-- Split a byte list into 64-byte chunks (fuelled; the fuel `l.length` always suffices). -/
def chunksGo : Nat → List Nat → List (List Nat)
  | 0, _ => []
  | _, [] => []
  | f + 1, l => l.take 64 :: chunksGo f (l.drop 64)

def chunks64 (l : List Nat) : List (List Nat) := chunksGo l.length l

/-- Extend the 16 message-schedule words of a chunk to 64 words. -/
def extendSchedule (w : List Nat) : List Nat :=
  (List.range 48).foldl (fun acc i =>
    acc ++ [w32 (acc.getD i 0 + smallS0 (acc.getD (i + 1) 0) +
                 acc.getD (i + 9) 0 + smallS1 (acc.getD (i + 14) 0))]) w

/-- One SHA-256 compression round over the running state `[a,b,c,d,e,f,g,h]`. -/
def sha256Round (w : List Nat) (st : List Nat) (i : Nat) : List Nat :=
  match st with
  | [a, b, c, d, e, f, g, h] =>
    let ch := (e &&& f) ^^^ ((e ^^^ 4294967295) &&& g)
    let t1 := w32 (h + bigS1 e + ch + sha256K.getD i 0 + w.getD i 0)
    let maj := (a &&& b) ^^^ (a &&& c) ^^^ (b &&& c)
    let t2 := w32 (bigS0 a + maj)
    [w32 (t1 + t2), a, b, c, w32 (d + t1), e, f, g]
  | _ => st

/-- SHA-256 compression of one 64-byte chunk into the running 8-word hash state. -/
def compressChunk (h : List Nat) (chunk : List Nat) : List Nat :=
  let w := extendSchedule (bytesToWords chunk)
  let st := (List.range 64).foldl (sha256Round w) h
  match h, st with
  | [h0, h1, h2, h3, h4, h5, h6, h7], [a, b, c, d, e, f, g, hh] =>
    [w32 (h0 + a), w32 (h1 + b), w32 (h2 + c), w32 (h3 + d),
     w32 (h4 + e), w32 (h5 + f), w32 (h6 + g), w32 (h7 + hh)]
  | _, _ => st

/-- SHA-256 of a byte list, as its 32 digest bytes. -/
def sha256Bytes (msg : List Nat) : List Nat :=
  ((chunks64 (sha256Pad msg)).foldl compressChunk sha256InitHash).foldr
    (fun wrd acc => (wrd >>> 24 % 256) :: (wrd >>> 16 % 256) :: (wrd >>> 8 % 256) :: (wrd % 256) :: acc) []

/-! ## The hasher (src/src/blockchain.rs lines 525–543) -/

/-- UTF-8 encoding of one unicode scalar value (Rust `str::as_bytes` byte semantics). -/
def utf8Encode (n : Nat) : List Nat :=
  if n < 128 then [n]
  else if n < 2048 then [192 + n / 64, 128 + n % 64]
  else if n < 65536 then [224 + n / 4096, 128 + (n / 64) % 64, 128 + n % 64]
  else [240 + n / 262144, 128 + (n / 4096) % 64, 128 + (n / 64) % 64, 128 + n % 64]

/-- The UTF-8 bytes of a string, modelling Rust `String::as_bytes`. -/
def strBytes (s : String) : List Nat := (s.data.map (fun c => utf8Encode c.toNat)).flatten

/-- Uppercase hex digit (values `0`–`15`). -/
def hexDigitChar : Nat → Char
  | 0 => '0' | 1 => '1' | 2 => '2' | 3 => '3' | 4 => '4'
  | 5 => '5' | 6 => '6' | 7 => '7' | 8 => '8' | 9 => '9'
  | 10 => 'A' | 11 => 'B' | 12 => 'C' | 13 => 'D' | 14 => 'E'
  | _ => 'F'

/-- Lowercase hex digit (used by serde_json `\u00XX` control-character escapes). -/
def hexDigitCharLower : Nat → Char
  | 0 => '0' | 1 => '1' | 2 => '2' | 3 => '3' | 4 => '4'
  | 5 => '5' | 6 => '6' | 7 => '7' | 8 => '8' | 9 => '9'
  | 10 => 'a' | 11 => 'b' | 12 => 'c' | 13 => 'd' | 14 => 'e'
  | _ => 'f'

/-- Rust `format!("\x7b:X?\x7d", byte)` as used in `hasher`: uppercase hex of one byte with
no zero-padding, so bytes `0x00`–`0x0F` render as a single digit. -/
def hexByte (b : Nat) : String :=
  if b < 16 then ⟨[hexDigitChar b]⟩ else ⟨[hexDigitChar (b / 16), hexDigitChar (b % 16)]⟩

/-- serde_json escaping of one character inside a JSON string literal. -/
def jsonEscapeChar (c : Char) : List Char :=
  if c = '"' then ['\\', '"']
  else if c = '\\' then ['\\', '\\']
  else if c.toNat = 8 then ['\\', 'b']
  else if c.toNat = 9 then ['\\', 't']
  else if c.toNat = 10 then ['\\', 'n']
  else if c.toNat = 12 then ['\\', 'f']
  else if c.toNat = 13 then ['\\', 'r']
  else if c.toNat < 32 then
    ['\\', 'u', '0', '0', hexDigitCharLower (c.toNat / 16), hexDigitCharLower (c.toNat % 16)]
  else [c]

/-- serde_json rendering of a string value: quoted, with `jsonEscapeChar` per character. -/
def jsonEscapeString (s : String) : String :=
  ⟨'"' :: s.data.foldr (fun c acc => jsonEscapeChar c ++ acc) ['"']⟩

/-- Modelled from the spec: the compact JSON text built by `serde_json::json!` in `hasher`
(src/src/blockchain.rs lines 526–532).  The field values and the compact rendering are those
of the source; the *key order* depends on serde_json's `preserve_order` feature flag in
Cargo.toml, which is not among the sources, so the order `prev_hash, data, timestamp, nonce`
is taken from the spec's words ("keys in the stated order `prev_hash, data, timestamp,
nonce`"). -/
def jsonSerialize (prev_hash data : String) (timestamp nonce : Int) : String :=
  "\x7b\"prev_hash\":" ++ jsonEscapeString prev_hash ++
  ",\"data\":" ++ jsonEscapeString data ++
  ",\"timestamp\":" ++ toString timestamp ++
  ",\"nonce\":" ++ toString nonce ++ "\x7d"

/-- `hasher` (src/src/blockchain.rs lines 525–543): serialize the four fields as compact JSON,
SHA-256 the UTF-8 bytes, then fold each digest byte into an uppercase unpadded hex string. -/
def hasher (prev_hash data : String) (timestamp nonce : Int) : String :=
  (sha256Bytes (strBytes (jsonSerialize prev_hash data timestamp nonce))).foldl
    (fun acc el => acc ++ hexByte el) ""

/-! ## Blocks, errors and the relational store -/

/-- `GENESIS_BLOCK_HASH` (src/src/blockchain.rs line 12). -/
def GENESIS_BLOCK_HASH : String :=
  "0A31F6A1DB36EEDF9AA5C56AB90DCC76A3ABD90C77B1198336FD1AE512193F"

/-- `GENESIS_BLOCK_DATA` (src/src/blockchain.rs line 11). -/
def GENESIS_BLOCK_DATA : String := "some random newspaper headline from today"

/-- `BLOCK_DIFFICULTY` (src/src/blockchain.rs line 10). -/
def BLOCK_DIFFICULTY : String := "00"

/-- `Block` (src/src/blockchain.rs lines 423–431); `i64` columns modelled as `Int`. -/
structure Block where
  hash : String
  id : Int
  prev_hash : String
  timestamp : Int
  nonce : Int
  data : String
deriving DecidableEq, Repr

/-- `Block::create_genesis` (src/src/blockchain.rs lines 455–465). -/
def create_genesis : Block :=
  { hash := GENESIS_BLOCK_HASH, id := 0, prev_hash := "null",
    timestamp := 0, nonce := 0, data := GENESIS_BLOCK_DATA }

/-- `BlockchainError` (src/src/blockchain.rs lines 25–32).  The wrapped
`tokio_postgres::Error` and `std::io::Error` payloads are opaque to every claim, so
`DatabaseError` and `IoError` carry no payload here. -/
inductive BlockchainError where
  | BlockInvalid (hash : String)
  | ChainInvalid (cause : BlockchainError)
  | BlockNotFound (hash : String)
  | IoError
  | DatabaseError
  | Error (msg : String)
deriving DecidableEq, Repr

/-- The `blocks` table, as its rows in insertion order. -/
abbrev Db := List Block

/-- `Chain::get_block` (src/src/blockchain.rs lines 263–292): `query_one` on
`WHERE hash = key` succeeds iff exactly one row matches; any other outcome is wrapped as
`DatabaseError` (the `Err` branch at lines 287–291). -/
def get_block (db : Db) (key : String) : Except BlockchainError Block :=
  match db.filter (fun b => b.hash == key) with
  | [b] => .ok b
  | _ => .error .DatabaseError

/-- One `INSERT INTO blocks` (prepared statement at e.g. lines 208–225): appends the row,
failing with a database error when a `hash` (primary key), `id` (UNIQUE) or `prev_hash`
(UNIQUE) constraint is violated. -/
def insertBlock (db : Db) (b : Block) : Except BlockchainError Db :=
  if db.any (fun r => r.hash == b.hash || r.id == b.id || r.prev_hash == b.prev_hash)
  then .error .DatabaseError
  else .ok (db ++ [b])

/-- `Chain::check_if_block_valid` (src/src/blockchain.rs lines 351–370). -/
def check_if_block_valid (db : Db) (block : Block) : Except BlockchainError Unit :=
  if block.id = 0 ∧ block.hash = GENESIS_BLOCK_HASH then .ok ()
  else
    match get_block db block.prev_hash with
    | .error e => .error e
    | .ok prev_block =>
      if prev_block.id ≠ block.id - 1 then .error (.BlockInvalid block.hash)
      else if hasher block.prev_hash block.data block.timestamp block.nonce ≠ block.hash then
        .error (.BlockInvalid block.hash)
      else .ok ()

/-- The `loop` of `Chain::validate_chain` (src/src/blockchain.rs lines 394–419), fuelled:
`none` means the fuel ran out (the source loop can run forever on a cyclic store);
a `get_block` failure propagates through `?` without being wrapped in `ChainInvalid`. -/
def validate_chain_loop (db : Db) (block_count : Int) :
    Nat → String → Int → Option (Except BlockchainError Unit)
  | 0, _, _ => none
  | fuel + 1, current_block_hash, blocks_validated =>
    match get_block db current_block_hash with
    | .error e => some (.error e)
    | .ok current_block =>
      match check_if_block_valid db current_block with
      | .error err => some (.error (.ChainInvalid err))
      | .ok _ =>
        if current_block.id = 0 then
          if blocks_validated + 1 = block_count then
            if current_block.hash = GENESIS_BLOCK_HASH then some (.ok ())
            else some (.error (.ChainInvalid (.Error "genesis hash invalid.")))
          else some (.error (.ChainInvalid (.Error "invalid chain length.")))
        else validate_chain_loop db block_count fuel current_block.prev_hash (blocks_validated + 1)

/-- `Chain::validate_chain` (src/src/blockchain.rs lines 372–420): `SELECT COUNT(*)` is the
row count of the model store; then the fuelled backward walk from the cached latest block. -/
def validate_chain (db : Db) (latest_block : Block) (fuel : Nat) :
    Option (Except BlockchainError Unit) :=
  if (db.length : Int) ≠ latest_block.id + 1 then
    some (.error (.ChainInvalid (.Error "number of blocks != ID of latest block + 1")))
  else validate_chain_loop db (db.length : Int) fuel latest_block.hash 0

/-- The comparator of `chain.sort_by(|a, b| a.id.cmp(&b.id))` (line 178). -/
def blockLe (a b : Block) : Prop := a.id ≤ b.id

instance : DecidableRel blockLe := fun a b => inferInstanceAs (Decidable (a.id ≤ b.id))

instance : IsTotal Block blockLe := ⟨fun a b => Int.le_total a.id b.id⟩

instance : IsTrans Block blockLe := ⟨fun _ _ _ h1 h2 => le_trans h1 h2⟩

/-- Stable sort of blocks by ascending `id`, modelling both `sort_by` in `Chain::update` and
the `ORDER BY id ASC` of `Chain::get_chain`. -/
def sortById (chain : List Block) : List Block := List.insertionSort blockLe chain

/-- The insert loop of `Chain::update` (src/src/blockchain.rs lines 180–198): insert each
block of the sorted list in order; on the last index also move the in-memory cursor.  A
failed insert returns the error with the rows inserted so far and the cursor untouched. -/
def updateLoop (total : Nat) :
    Db → Block → Nat → List Block → Except BlockchainError Unit × Db × Block
  | db, latest, _, [] => (.ok (), db, latest)
  | db, latest, idx, b :: rest =>
    match insertBlock db b with
    | .error e => (.error e, db, latest)
    | .ok db2 => updateLoop total db2 (if idx = total - 1 then b else latest) (idx + 1) rest

/-- `Chain::update` (src/src/blockchain.rs lines 165–201): `DELETE FROM blocks`, sort the
incoming chain by `id`, insert in order; returns the outcome with the final store rows and
the final in-memory `latest_block`. -/
def update (_db : Db) (latest_block : Block) (chain : List Block) :
    Except BlockchainError Unit × Db × Block :=
  updateLoop (sortById chain).length [] latest_block 0 (sortById chain)

/-- `Chain::get_chain` (src/src/blockchain.rs lines 232–261): all rows `ORDER BY id ASC`. -/
def get_chain (db : Db) : List Block := sortById db

/-- `Chain::add_block` (src/src/blockchain.rs lines 204–230), the "add received block" path
used for `ReceivedNewBlock` in `main.rs`: validate, then insert, then move the cursor. -/
def add_block (db : Db) (latest_block : Block) (block : Block) :
    Except BlockchainError Unit × Db × Block :=
  match check_if_block_valid db block with
  | .error e => (.error e, db, latest_block)
  | .ok _ =>
    match insertBlock db block with
    | .error e => (.error e, db, latest_block)
    | .ok db2 => (.ok (), db2, block)

/-! ## The parallel miner `find_hash` (src/src/blockchain.rs lines 475–523)

Each worker repeatedly: atomically claims a batch of 100 nonces from the shared counter
(one mutex acquisition), hashes through the batch locally until the first difficulty hit,
then — in three *separate* mutex acquisitions — reads the `final_nonce` guard, writes the
`hash` slot, writes the `final_nonce` slot, and finally re-reads `final_nonce` to decide
whether to exit.  Only the shared accesses are transition steps; the purely local hashing
of a batch is folded into the claim step.  `tested` is a ghost log of every nonce hashed. -/

/-- The fixed arguments of one `find_hash` call. -/
structure MineInput where
  prev_hash : String
  data : String
  timestamp : Int
  block_difficulty : String
deriving DecidableEq, Repr

/-- Rust `str::starts_with` on a string pattern: prefix match. -/
def strStarts : List Char → List Char → Bool
  | _, [] => true
  | [], _ :: _ => false
  | c :: cs, p :: ps => c == p && strStarts cs ps

/-- `hash_string.starts_with(block_difficulty)` for nonce `n` (line 502). -/
def difficultyHit (inp : MineInput) (n : Int) : Bool :=
  strStarts (hasher inp.prev_hash inp.data inp.timestamp n).data inp.block_difficulty.data

/-- First difficulty hit among `fuel` consecutive nonces starting at `n`. -/
def firstHitFrom (inp : MineInput) : Nat → Int → Option Int
  | 0, _ => none
  | k + 1, n => if difficultyHit inp n then some n else firstHitFrom inp k (n + 1)

/-- The nonces actually hashed when scanning `fuel` consecutive nonces from `n`
(the scan stops at the first hit, which is still hashed). -/
def testedFrom (inp : MineInput) : Nat → Int → List Int
  | 0, _ => []
  | k + 1, n => if difficultyHit inp n then [n] else n :: testedFrom inp k (n + 1)

/-- A worker's position between shared-memory accesses. -/
inductive WorkerPC where
  | claim
  | guardRead (h : String) (m : Int)
  | writeHash (h : String) (m : Int)
  | writeFinal (m : Int)
  | afterFor
  | done
deriving DecidableEq, Repr

/-- The shared cells of `find_hash` plus each worker's position and the ghost log. -/
structure MineState where
  shared_max_nonce : Int
  hash : String
  final_nonce : Int
  workers : List WorkerPC
  tested : List Int
deriving DecidableEq, Repr

/-- One shared-memory access of one worker (each corresponds to exactly one
mutex acquisition in src/src/blockchain.rs lines 494–513). -/
inductive MineStep (inp : MineInput) : MineState → MineState → Prop where
  | claimBatch (s t : MineState) (i : Nat) :
      s.workers[i]? = some .claim →
      t = { s with
            shared_max_nonce := s.shared_max_nonce + 100,
            workers := s.workers.set i
              (match firstHitFrom inp 100 s.shared_max_nonce with
               | some m => .guardRead (hasher inp.prev_hash inp.data inp.timestamp m) m
               | none => .afterFor),
            tested := s.tested ++ testedFrom inp 100 s.shared_max_nonce } →
      MineStep inp s t
  | guardZero (s t : MineState) (i : Nat) (h : String) (m : Int) :
      s.workers[i]? = some (.guardRead h m) →
      s.final_nonce = 0 →
      t = { s with workers := s.workers.set i (.writeHash h m) } →
      MineStep inp s t
  | guardNonzero (s t : MineState) (i : Nat) (h : String) (m : Int) :
      s.workers[i]? = some (.guardRead h m) →
      s.final_nonce ≠ 0 →
      t = { s with workers := s.workers.set i .afterFor } →
      MineStep inp s t
  | doWriteHash (s t : MineState) (i : Nat) (h : String) (m : Int) :
      s.workers[i]? = some (.writeHash h m) →
      t = { s with hash := h, workers := s.workers.set i (.writeFinal m) } →
      MineStep inp s t
  | doWriteFinal (s t : MineState) (i : Nat) (m : Int) :
      s.workers[i]? = some (.writeFinal m) →
      t = { s with final_nonce := m, workers := s.workers.set i .afterFor } →
      MineStep inp s t
  | exitLoop (s t : MineState) (i : Nat) :
      s.workers[i]? = some .afterFor →
      s.final_nonce ≠ 0 →
      t = { s with workers := s.workers.set i .done } →
      MineStep inp s t
  | loopAgain (s t : MineState) (i : Nat) :
      s.workers[i]? = some .afterFor →
      s.final_nonce = 0 →
      t = { s with workers := s.workers.set i .claim } →
      MineStep inp s t

/-- The state at the top of `find_hash`: counter 0, empty hash slot, final nonce 0,
`threads` workers about to enter their loops. -/
def MineInit (threads : Nat) : MineState :=
  { shared_max_nonce := 0, hash := "", final_nonce := 0,
    workers := List.replicate threads .claim, tested := [] }

/-- All workers have left their loops, so `crossbeam::scope` joins and the call returns. -/
def TerminalState (s : MineState) : Prop := ∀ pc ∈ s.workers, pc = WorkerPC.done

instance (s : MineState) : Decidable (TerminalState s) :=
  inferInstanceAs (Decidable (∀ pc ∈ s.workers, pc = WorkerPC.done))

/-- Interleaved execution of the worker pool. -/
def Reaches (inp : MineInput) : MineState → MineState → Prop :=
  Relation.ReflTransGen (MineStep inp)

/-- `find_hash(inp…, threads)` can return the pair `(h, n)`: some schedule drives the pool
from the initial state to a terminal state whose shared slots hold `h` and `n`. -/
def FindHashReturns (inp : MineInput) (threads : Nat) (h : String) (n : Int) : Prop :=
  ∃ s, Reaches inp (MineInit threads) s ∧ TerminalState s ∧ s.hash = h ∧ s.final_nonce = n

/-! ## Spec-side walk for whole-chain validation -/

/-- The backward walk of the spec: from hash `h`, look up the block, stop at an id-0 block,
otherwise continue from its `prev_hash`, collecting the visited blocks. -/
inductive WalksTo (db : Db) : String → List Block → Prop where
  | last (h : String) (b : Block) :
      get_block db h = .ok b → b.id = 0 → WalksTo db h [b]
  | step (h : String) (b : Block) (bs : List Block) :
      get_block db h = .ok b → b.id ≠ 0 → WalksTo db b.prev_hash bs →
      WalksTo db h (b :: bs)

/-! ## Concrete inputs used by witnesses and counterexamples -/

/-- A mining call with empty difficulty (every hash is a hit, as the spec notes). -/
def inpFree : MineInput :=
  { prev_hash := "p", data := "d", timestamp := 0, block_difficulty := "" }

/-- A store holding one id-0 row whose hash is "x". -/
def cexDb : Db := [{ hash := "x", id := 0, prev_hash := "null", timestamp := 0, nonce := 0, data := "d" }]

/-- A cached latest block whose hash "y" is not stored. -/
def cexLatest : Block :=
  { hash := "y", id := 0, prev_hash := "pp", timestamp := 0, nonce := 0, data := "e" }

/-- A block with id 1 used by the update witnesses. -/
def blkA : Block :=
  { hash := "h1", id := 1, prev_hash := "q1", timestamp := 0, nonce := 0, data := "d1" }

/-- A block with id 2 used by the update witnesses. -/
def blkB : Block :=
  { hash := "h2", id := 2, prev_hash := "q2", timestamp := 0, nonce := 0, data := "d2" }

/-- A non-genesis block whose predecessor is nowhere stored. -/
def blkOrphan : Block :=
  { hash := "z", id := 5, prev_hash := "missing", timestamp := 0, nonce := 0, data := "w" }

/-! ## Helper lemmas about the store -/

/-- If no stored row has the hash `key`, the SQL filter is empty. -/
lemma filter_hash_eq_nil (db : Db) (key : String) (h : ∀ p ∈ db, p.hash ≠ key) :
    db.filter (fun b => b.hash == key) = [] := by
  rw [List.filter_eq_nil_iff]
  intro a ha
  simpa using h a ha

/-- A lookup with no matching row fails with the wrapped database error. -/
lemma get_block_miss (db : Db) (key : String) (h : ∀ p ∈ db, p.hash ≠ key) :
    get_block db key = .error .DatabaseError := by
  unfold get_block
  rw [filter_hash_eq_nil db key h]

/-- With pairwise-distinct hashes (the PRIMARY KEY invariant), the SQL filter for the hash of
a stored row returns exactly that row. -/
lemma filter_hash_eq_single (db : Db) (key : String) (p : Block)
    (hnd : (db.map Block.hash).Nodup) (hp : p ∈ db) (hk : p.hash = key) :
    db.filter (fun b => b.hash == key) = [p] := by
  induction db with
  | nil => cases hp
  | cons q rest ih =>
    rw [List.map_cons, List.nodup_cons] at hnd
    rw [List.filter_cons]
    rcases List.mem_cons.mp hp with rfl | hmem
    · rw [if_pos (by simp [hk]), filter_hash_eq_nil]
      intro r hr hrk
      exact hnd.1 (List.mem_map.mpr ⟨r, hr, hrk.trans hk.symm⟩)
    · have hqk : q.hash ≠ key := fun he =>
        hnd.1 (List.mem_map.mpr ⟨p, hmem, hk.trans he.symm⟩)
      rw [if_neg (by simpa using hqk)]
      exact ih hnd.2 hmem

/-- With pairwise-distinct hashes, looking up the hash of a stored row returns that row. -/
lemma get_block_hit (db : Db) (key : String) (p : Block)
    (hnd : (db.map Block.hash).Nodup) (hp : p ∈ db) (hk : p.hash = key) :
    get_block db key = .ok p := by
  unfold get_block
  rw [filter_hash_eq_single db key p hnd hp hk]

/-- Reduction of `check_if_block_valid` once the predecessor lookup succeeded. -/
lemma check_if_block_valid_of_prev (db : Db) (b p : Block)
    (hg : ¬(b.id = 0 ∧ b.hash = GENESIS_BLOCK_HASH))
    (hgb : get_block db b.prev_hash = .ok p) :
    check_if_block_valid db b =
      (if p.id ≠ b.id - 1 then .error (.BlockInvalid b.hash)
       else if hasher b.prev_hash b.data b.timestamp b.nonce ≠ b.hash then
         .error (.BlockInvalid b.hash)
       else .ok ()) := by
  unfold check_if_block_valid
  rw [if_neg hg, hgb]

/-! ## C2 — the hasher pipeline -/

/-- C2: `hasher` serializes the four fields as one compact JSON object with keys in the
order `prev_hash, data, timestamp, nonce`, applies SHA-256 (checked here against the FIPS
"abc" test vector), and renders each digest byte as uppercase hex with no zero-padding
(byte 0x0A gives "A", byte 0xAB gives "AB"), so the output length varies with the digest. -/
theorem hasher_serialization_characterization :
    (∀ p d (t n : Int), hasher p d t n =
      (sha256Bytes (strBytes (jsonSerialize p d t n))).foldl (fun acc el => acc ++ hexByte el) "") ∧
    jsonSerialize "a" "b" 5 7 =
      "\x7b\"prev_hash\":\"a\",\"data\":\"b\",\"timestamp\":5,\"nonce\":7\x7d" ∧
    sha256Bytes (strBytes "abc") =
      [186, 120, 22, 191, 143, 1, 207, 234, 65, 65, 64, 222, 93, 174, 34, 35,
       176, 3, 97, 163, 150, 23, 122, 156, 180, 16, 255, 97, 242, 0, 21, 173] ∧
    hexByte 10 = "A" ∧ hexByte 171 = "AB" ∧
    (∀ b : Nat, b < 16 → (hexByte b).length = 1) ∧
    hasher "a" "b" 5 7 = "E2CEB36B9279C8A03A201AE4DD89628DDE32B9E1672A649C5F4E8A68CEE4" ∧
    (hasher "a" "b" 5 6).length = 64 ∧ (hasher "a" "b" 5 7).length = 60 :=
  ⟨fun _ _ _ _ => rfl, by decide, by decide, by decide, by decide, by decide,
   by decide, by decide, by decide⟩

/-- Witness for C2: the bounded quantifier applied at byte 3. -/
theorem hasher_serialization_characterization_witness :
    3 < 16 ∧ (hexByte 3).length = 1 :=
  ⟨by decide, hasher_serialization_characterization.2.2.2.2.2.1 3 (by decide)⟩

/-! ## C3 — single-block validation -/

/-- C3: `check_if_block_valid` accepts a block with id 0 and the genesis hash; otherwise it
fails when no stored row has the block's `prev_hash`, returns `BlockInvalid(hash)` when the
stored predecessor's id is not `id − 1` or when the recomputed hash differs, and accepts
otherwise — the difficulty prefix is never re-checked. -/
theorem check_if_block_valid_characterization (db : Db) (b : Block)
    (hnd : (db.map Block.hash).Nodup) :
    ((b.id = 0 ∧ b.hash = GENESIS_BLOCK_HASH) → check_if_block_valid db b = .ok ()) ∧
    (¬(b.id = 0 ∧ b.hash = GENESIS_BLOCK_HASH) → (∀ p ∈ db, p.hash ≠ b.prev_hash) →
      check_if_block_valid db b = .error .DatabaseError) ∧
    (∀ p ∈ db, p.hash = b.prev_hash → ¬(b.id = 0 ∧ b.hash = GENESIS_BLOCK_HASH) →
      p.id ≠ b.id - 1 →
      check_if_block_valid db b = .error (.BlockInvalid b.hash)) ∧
    (∀ p ∈ db, p.hash = b.prev_hash → ¬(b.id = 0 ∧ b.hash = GENESIS_BLOCK_HASH) →
      p.id = b.id - 1 → hasher b.prev_hash b.data b.timestamp b.nonce ≠ b.hash →
      check_if_block_valid db b = .error (.BlockInvalid b.hash)) ∧
    (∀ p ∈ db, p.hash = b.prev_hash → ¬(b.id = 0 ∧ b.hash = GENESIS_BLOCK_HASH) →
      p.id = b.id - 1 → hasher b.prev_hash b.data b.timestamp b.nonce = b.hash →
      check_if_block_valid db b = .ok ()) := by
  refine ⟨fun hg => ?_, fun hg hmiss => ?_, fun p hp hk hg hid => ?_,
          fun p hp hk hg hid hh => ?_, fun p hp hk hg hid hh => ?_⟩
  · unfold check_if_block_valid
    rw [if_pos hg]
  · unfold check_if_block_valid
    rw [if_neg hg, get_block_miss db b.prev_hash hmiss]
  · rw [check_if_block_valid_of_prev db b p hg (get_block_hit db b.prev_hash p hnd hp hk),
      if_pos hid]
  · rw [check_if_block_valid_of_prev db b p hg (get_block_hit db b.prev_hash p hnd hp hk),
      if_neg (by simpa using hid), if_pos hh]
  · rw [check_if_block_valid_of_prev db b p hg (get_block_hit db b.prev_hash p hnd hp hk),
      if_neg (by simpa using hid), if_neg (by simpa using hh)]

/-- Witness for C3: the genesis branch on a store holding only the genesis row. -/
theorem check_if_block_valid_characterization_witness :
    (create_genesis.id = 0 ∧ create_genesis.hash = GENESIS_BLOCK_HASH) ∧
    check_if_block_valid [create_genesis] create_genesis = .ok () :=
  ⟨⟨rfl, rfl⟩,
   (check_if_block_valid_characterization [create_genesis] create_genesis (by decide)).1
     ⟨rfl, rfl⟩⟩

/-! ## C6 — add_block validates before writing -/

/-- C6: `add_block` (the "add received block" path for `ReceivedNewBlock`) runs
`check_if_block_valid` before any write; a validation failure is returned with the store
rows and the cursor untouched; on successful validation and insert the row is appended and
the cursor moves to the new block. -/
theorem add_block_validates_before_write (db : Db) (latest b : Block) :
    (∀ e, check_if_block_valid db b = .error e →
      add_block db latest b = (.error e, db, latest)) ∧
    (∀ db2, check_if_block_valid db b = .ok () → insertBlock db b = .ok db2 →
      add_block db latest b = (.ok (), db2, b) ∧ db2 = db ++ [b]) := by
  constructor
  · intro e he
    unfold add_block
    rw [he]
  · intro db2 hv hi
    unfold add_block
    rw [hv, hi]
    refine ⟨rfl, ?_⟩
    unfold insertBlock at hi
    split at hi
    · cases hi
    · injection hi with h
      exact h.symm

/-- Witness for C6: an orphan block is rejected by validation and nothing is written. -/
theorem add_block_validates_before_write_witness :
    check_if_block_valid ([] : Db) blkOrphan = .error .DatabaseError ∧
    add_block ([] : Db) create_genesis blkOrphan =
      (.error .DatabaseError, ([] : Db), create_genesis) :=
  ⟨rfl, (add_block_validates_before_write [] create_genesis blkOrphan).1 .DatabaseError rfl⟩

/-! ## C7 — what a lookup miss reports -/

/-- Counterexample for C7: `get_block` on an absent hash does *not* return
`BlockNotFound(hash)`; it wraps the store failure as `DatabaseError`
(src/src/blockchain.rs lines 287–291). -/
theorem get_block_miss_not_blocknotfound :
    get_block ([] : Db) "h" ≠ .error (.BlockNotFound "h") ∧
    get_block ([] : Db) "h" = .error .DatabaseError :=
  ⟨fun h => BlockchainError.noConfusion (Except.error.inj h), rfl⟩

/-- C7 as amended: a lookup miss surfaces as the `DatabaseError` kind — `get_block` never
produces `BlockNotFound`, and `check_if_block_valid` on a non-genesis block whose
predecessor is absent propagates that same `DatabaseError`. -/
theorem lookup_miss_database_error (db : Db) (key : String) (b : Block) :
    ((∀ p ∈ db, p.hash ≠ key) → get_block db key = .error .DatabaseError) ∧
    (∀ h, get_block db key ≠ .error (.BlockNotFound h)) ∧
    (¬(b.id = 0 ∧ b.hash = GENESIS_BLOCK_HASH) → (∀ p ∈ db, p.hash ≠ b.prev_hash) →
      check_if_block_valid db b = .error .DatabaseError) := by
  refine ⟨get_block_miss db key, fun h hcontra => ?_, fun hg hmiss => ?_⟩
  · unfold get_block at hcontra
    rcases hfe : db.filter (fun r => r.hash == key) with _ | ⟨x, _ | ⟨y, t⟩⟩ <;>
      rw [hfe] at hcontra
    · exact BlockchainError.noConfusion (Except.error.inj hcontra)
    · exact Except.noConfusion hcontra
    · exact BlockchainError.noConfusion (Except.error.inj hcontra)
  · unfold check_if_block_valid
    rw [if_neg hg, get_block_miss db b.prev_hash hmiss]

/-- Witness for C7's amended claim, on the empty store. -/
theorem lookup_miss_database_error_witness :
    get_block ([] : Db) "absent" = .error .DatabaseError ∧
    check_if_block_valid ([] : Db) blkOrphan = .error .DatabaseError :=
  ⟨(lookup_miss_database_error [] "absent" blkOrphan).1 (by simp),
   (lookup_miss_database_error [] "absent" blkOrphan).2.2 (by decide) (by simp)⟩

/-! ## C10 — update with the empty chain -/

/-- C10: `update` with an empty block list succeeds, deletes every row, inserts nothing and
leaves the in-memory cursor unchanged — so the cursor names a block absent from the store. -/
theorem update_empty_chain_ok (db : Db) (latest : Block) :
    update db latest [] = (.ok (), ([] : Db), latest) ∧
    get_chain ([] : Db) = [] ∧
    latest ∉ ([] : Db) :=
  ⟨rfl, rfl, List.not_mem_nil latest⟩

/-! ## Mining: helper lemmas -/

/-- A state with a worker set to a non-`done` position is not terminal. -/
lemma not_terminal_of_set (l : List WorkerPC) (i : Nat) (pc : WorkerPC) (hpc : pc ≠ .done)
    (hi : i < l.length) (hall : ∀ x ∈ l.set i pc, x = WorkerPC.done) : False := by
  apply hpc
  apply hall
  have hi' : i < (l.set i pc).length := by simpa using hi
  have he : (l.set i pc)[i] = pc := List.getElem_set_self hi'
  simpa [he] using List.getElem_mem hi'

/-- No step is possible when no workers were spawned. -/
lemma reaches_init_zero (inp : MineInput) (s : MineState)
    (h : Reaches inp (MineInit 0) s) : s = MineInit 0 := by
  induction h with
  | refl => rfl
  | tail _ hs ih =>
    rw [ih] at hs
    cases hs with
    | claimBatch i hg hteq => simp [MineInit] at hg
    | guardZero i h m hg hz hteq => simp [MineInit] at hg
    | guardNonzero i h m hg hz hteq => simp [MineInit] at hg
    | doWriteHash i h m hg hteq => simp [MineInit] at hg
    | doWriteFinal i m hg hteq => simp [MineInit] at hg
    | exitLoop i hg hz hteq => simp [MineInit] at hg
    | loopAgain i hg hz hteq => simp [MineInit] at hg

/-- In any reachable terminal state of a pool with at least one worker, the final-nonce
slot is non-zero: the last worker to exit saw it non-zero, and exiting changes no slot. -/
lemma terminal_final_ne_zero (inp : MineInput) (t : Nat) (ht : 1 ≤ t) (s : MineState)
    (hr : Reaches inp (MineInit t) s) :
    TerminalState s → s.final_nonce ≠ 0 := by
  induction hr with
  | refl =>
    intro hterm
    exfalso
    have hmem : WorkerPC.claim ∈ (MineInit t).workers :=
      List.mem_replicate.mpr ⟨by omega, rfl⟩
    exact WorkerPC.noConfusion (hterm _ hmem)
  | tail _ hs _ =>
    intro hterm
    cases hs with
    | claimBatch i hg hteq =>
      exfalso
      subst hteq
      rcases List.getElem?_eq_some.mp hg with ⟨hi, _⟩
      refine not_terminal_of_set _ i _ ?_ hi hterm
      rcases firstHitFrom inp 100 _ with _ | m <;> simp
    | guardZero i h m hg hz hteq =>
      exfalso
      subst hteq
      rcases List.getElem?_eq_some.mp hg with ⟨hi, _⟩
      exact not_terminal_of_set _ i _ (by simp) hi hterm
    | guardNonzero i h m hg hz hteq =>
      exfalso
      subst hteq
      rcases List.getElem?_eq_some.mp hg with ⟨hi, _⟩
      exact not_terminal_of_set _ i _ (by simp) hi hterm
    | doWriteHash i h m hg hteq =>
      exfalso
      subst hteq
      rcases List.getElem?_eq_some.mp hg with ⟨hi, _⟩
      exact not_terminal_of_set _ i _ (by simp) hi hterm
    | doWriteFinal i m hg hteq =>
      exfalso
      subst hteq
      rcases List.getElem?_eq_some.mp hg with ⟨hi, _⟩
      exact not_terminal_of_set _ i _ (by simp) hi hterm
    | exitLoop i hg hz hteq =>
      subst hteq
      exact hz
    | loopAgain i hg hz hteq =>
      exfalso
      subst hteq
      rcases List.getElem?_eq_some.mp hg with ⟨hi, _⟩
      exact not_terminal_of_set _ i _ (by simp) hi hterm

/-- A complete single-worker run of `find_hash("p", "d", 0, "", 1)`: the worker hashes
nonce 0 (a hit, but publishing it leaves the final-nonce slot at its "not found" value 0),
loops, and then publishes nonce 100 from its second batch. -/
lemma find_hash_one_worker_run :
    FindHashReturns inpFree 1 (hasher "p" "d" 0 100) 100 := by
  refine ⟨⟨200, hasher "p" "d" 0 100, 100, [.done], [0, 100]⟩, ?_, by decide, rfl, rfl⟩
  refine Relation.ReflTransGen.head
    (MineStep.claimBatch (MineInit 1)
      ⟨100, "", 0, [.guardRead (hasher "p" "d" 0 0) 0], [0]⟩ 0 (by decide) (by decide)) ?_
  refine Relation.ReflTransGen.head
    (MineStep.guardZero ⟨100, "", 0, [.guardRead (hasher "p" "d" 0 0) 0], [0]⟩
      ⟨100, "", 0, [.writeHash (hasher "p" "d" 0 0) 0], [0]⟩
      0 (hasher "p" "d" 0 0) 0 (by decide) (by decide) (by decide)) ?_
  refine Relation.ReflTransGen.head
    (MineStep.doWriteHash ⟨100, "", 0, [.writeHash (hasher "p" "d" 0 0) 0], [0]⟩
      ⟨100, hasher "p" "d" 0 0, 0, [.writeFinal 0], [0]⟩
      0 (hasher "p" "d" 0 0) 0 (by decide) (by decide)) ?_
  refine Relation.ReflTransGen.head
    (MineStep.doWriteFinal ⟨100, hasher "p" "d" 0 0, 0, [.writeFinal 0], [0]⟩
      ⟨100, hasher "p" "d" 0 0, 0, [.afterFor], [0]⟩ 0 0 (by decide) (by decide)) ?_
  refine Relation.ReflTransGen.head
    (MineStep.loopAgain ⟨100, hasher "p" "d" 0 0, 0, [.afterFor], [0]⟩
      ⟨100, hasher "p" "d" 0 0, 0, [.claim], [0]⟩ 0 (by decide) (by decide) (by decide)) ?_
  refine Relation.ReflTransGen.head
    (MineStep.claimBatch ⟨100, hasher "p" "d" 0 0, 0, [.claim], [0]⟩
      ⟨200, hasher "p" "d" 0 0, 0, [.guardRead (hasher "p" "d" 0 100) 100], [0, 100]⟩
      0 (by decide) (by decide)) ?_
  refine Relation.ReflTransGen.head
    (MineStep.guardZero ⟨200, hasher "p" "d" 0 0, 0, [.guardRead (hasher "p" "d" 0 100) 100], [0, 100]⟩
      ⟨200, hasher "p" "d" 0 0, 0, [.writeHash (hasher "p" "d" 0 100) 100], [0, 100]⟩
      0 (hasher "p" "d" 0 100) 100 (by decide) (by decide) (by decide)) ?_
  refine Relation.ReflTransGen.head
    (MineStep.doWriteHash ⟨200, hasher "p" "d" 0 0, 0, [.writeHash (hasher "p" "d" 0 100) 100], [0, 100]⟩
      ⟨200, hasher "p" "d" 0 100, 0, [.writeFinal 100], [0, 100]⟩
      0 (hasher "p" "d" 0 100) 100 (by decide) (by decide)) ?_
  refine Relation.ReflTransGen.head
    (MineStep.doWriteFinal ⟨200, hasher "p" "d" 0 100, 0, [.writeFinal 100], [0, 100]⟩
      ⟨200, hasher "p" "d" 0 100, 100, [.afterFor], [0, 100]⟩ 0 100 (by decide) (by decide)) ?_
  refine Relation.ReflTransGen.single ?_
  exact MineStep.exitLoop ⟨200, hasher "p" "d" 0 100, 100, [.afterFor], [0, 100]⟩
    ⟨200, hasher "p" "d" 0 100, 100, [.done], [0, 100]⟩ 0 (by decide) (by decide) (by decide)

/-! ## C9 — nonce 0 and the returned nonce -/

/-- Counterexample for C9: nonce 0 *is* tested as a candidate.  With one worker and the
empty difficulty prefix, already the first batch claim hashes nonce 0 (the shared counter
starts at 0, src/src/blockchain.rs line 482), as the ghost log of hashed nonces records. -/
theorem find_hash_tests_nonce_zero :
    ∃ s, Reaches inpFree (MineInit 1) s ∧ (0 : Int) ∈ s.tested := by
  refine ⟨⟨100, "", 0, [.guardRead (hasher "p" "d" 0 0) 0], [0]⟩,
    Relation.ReflTransGen.single
      (MineStep.claimBatch (MineInit 1)
        ⟨100, "", 0, [.guardRead (hasher "p" "d" 0 0) 0], [0]⟩ 0 (by decide) (by decide)),
    by decide⟩

/-- C9 as amended: whenever `find_hash` returns (at least one worker), the returned nonce is
non-zero — nonce 0 is reserved as "not found", so a hit at nonce 0 is never published as the
result (the worker that writes final-nonce 0 keeps searching) — although nonce 0 is hashed. -/
theorem find_hash_returned_nonce_ne_zero (inp : MineInput) (t : Nat) (h : String) (n : Int)
    (ht : 1 ≤ t) (hr : FindHashReturns inp t h n) : n ≠ 0 := by
  obtain ⟨s, hreach, hterm, _, hn⟩ := hr
  rw [← hn]
  exact terminal_final_ne_zero inp t ht s hreach hterm

/-- Witness for C9's amended claim: the single-worker run above returns nonce 100 ≠ 0. -/
theorem find_hash_returned_nonce_ne_zero_witness : 1 ≤ 1 ∧ (100 : Int) ≠ 0 :=
  ⟨le_refl 1,
   find_hash_returned_nonce_ne_zero inpFree 1 (hasher "p" "d" 0 100) 100 (le_refl 1)
     find_hash_one_worker_run⟩

/-! ## C8 — worker_count = 0 -/

/-- Counterexample for C8: a call with `worker_count == 0` is *not* rejected — the
`for _ in 0..threads` loop spawns nothing, `crossbeam::scope` joins immediately, and
`find_hash` returns the initial slot contents `("", 0)`. -/
theorem find_hash_zero_workers_returns : FindHashReturns inpFree 0 "" 0 :=
  ⟨MineInit 0, Relation.ReflTransGen.refl,
   fun _ hpc => absurd hpc (by simp [MineInit]), rfl, rfl⟩

/-- C8 as amended: with zero workers `find_hash` returns, and the only possible result is
the pair `("", 0)` — the untouched initial values of the two shared slots. -/
theorem find_hash_zero_workers_iff (inp : MineInput) (h : String) (n : Int) :
    FindHashReturns inp 0 h n ↔ (h = "" ∧ n = 0) := by
  constructor
  · rintro ⟨s, hr, _, hh, hn⟩
    rw [reaches_init_zero inp s hr] at hh hn
    exact ⟨hh.symm, hn.symm⟩
  · rintro ⟨rfl, rfl⟩
    exact ⟨MineInit 0, Relation.ReflTransGen.refl,
      fun _ hpc => absurd hpc (by simp [MineInit]), rfl, rfl⟩

/-- Witness for C8's amended claim at a concrete input. -/
theorem find_hash_zero_workers_iff_witness :
    FindHashReturns inpFree 0 "" 0 ∧ ("" : String) = "" ∧ (0 : Int) = 0 :=
  ⟨(find_hash_zero_workers_iff inpFree "" 0).mpr ⟨rfl, rfl⟩, rfl, rfl⟩

/-! ## C1 — the published pair can be torn -/

/-- Evidence for C1 being a code bug: the guard read and the two slot writes are three
separate mutex acquisitions, so with two workers a schedule exists in which worker A claims
nonces [0,100) and hits 0, worker B claims [100,200) and hits 100, both pass the
`final_nonce == 0` guard, B writes its hash then A overwrites the hash slot with
`hasher(…,0)`, A writes final-nonce 0 and B then writes final-nonce 100: the call returns
the torn pair `(hasher(…,0), 100)`, whose hash is not the hash of the returned nonce. -/
theorem find_hash_race_returns_mismatched_pair :
    FindHashReturns inpFree 2 (hasher "p" "d" 0 0) 100 ∧
    hasher "p" "d" 0 0 ≠ hasher "p" "d" 0 100 := by
  constructor
  · refine ⟨⟨200, hasher "p" "d" 0 0, 100, [.done, .done], [0, 100]⟩, ?_, by decide, rfl, rfl⟩
    refine Relation.ReflTransGen.head
      (MineStep.claimBatch (MineInit 2)
        ⟨100, "", 0, [.guardRead (hasher "p" "d" 0 0) 0, .claim], []
          ++ [0]⟩ 0 (by decide) (by decide)) ?_
    refine Relation.ReflTransGen.head
      (MineStep.claimBatch ⟨100, "", 0, [.guardRead (hasher "p" "d" 0 0) 0, .claim], [0]⟩
        ⟨200, "", 0, [.guardRead (hasher "p" "d" 0 0) 0, .guardRead (hasher "p" "d" 0 100) 100],
          [0, 100]⟩ 1 (by decide) (by decide)) ?_
    refine Relation.ReflTransGen.head
      (MineStep.guardZero
        ⟨200, "", 0, [.guardRead (hasher "p" "d" 0 0) 0, .guardRead (hasher "p" "d" 0 100) 100],
          [0, 100]⟩
        ⟨200, "", 0, [.guardRead (hasher "p" "d" 0 0) 0, .writeHash (hasher "p" "d" 0 100) 100],
          [0, 100]⟩ 1 (hasher "p" "d" 0 100) 100 (by decide) (by decide) (by decide)) ?_
    refine Relation.ReflTransGen.head
      (MineStep.guardZero
        ⟨200, "", 0, [.guardRead (hasher "p" "d" 0 0) 0, .writeHash (hasher "p" "d" 0 100) 100],
          [0, 100]⟩
        ⟨200, "", 0, [.writeHash (hasher "p" "d" 0 0) 0, .writeHash (hasher "p" "d" 0 100) 100],
          [0, 100]⟩ 0 (hasher "p" "d" 0 0) 0 (by decide) (by decide) (by decide)) ?_
    refine Relation.ReflTransGen.head
      (MineStep.doWriteHash
        ⟨200, "", 0, [.writeHash (hasher "p" "d" 0 0) 0, .writeHash (hasher "p" "d" 0 100) 100],
          [0, 100]⟩
        ⟨200, hasher "p" "d" 0 100, 0, [.writeHash (hasher "p" "d" 0 0) 0, .writeFinal 100],
          [0, 100]⟩ 1 (hasher "p" "d" 0 100) 100 (by decide) (by decide)) ?_
    refine Relation.ReflTransGen.head
      (MineStep.doWriteHash
        ⟨200, hasher "p" "d" 0 100, 0, [.writeHash (hasher "p" "d" 0 0) 0, .writeFinal 100],
          [0, 100]⟩
        ⟨200, hasher "p" "d" 0 0, 0, [.writeFinal 0, .writeFinal 100], [0, 100]⟩
        0 (hasher "p" "d" 0 0) 0 (by decide) (by decide)) ?_
    refine Relation.ReflTransGen.head
      (MineStep.doWriteFinal
        ⟨200, hasher "p" "d" 0 0, 0, [.writeFinal 0, .writeFinal 100], [0, 100]⟩
        ⟨200, hasher "p" "d" 0 0, 0, [.afterFor, .writeFinal 100], [0, 100]⟩
        0 0 (by decide) (by decide)) ?_
    refine Relation.ReflTransGen.head
      (MineStep.doWriteFinal
        ⟨200, hasher "p" "d" 0 0, 0, [.afterFor, .writeFinal 100], [0, 100]⟩
        ⟨200, hasher "p" "d" 0 0, 100, [.afterFor, .afterFor], [0, 100]⟩
        1 100 (by decide) (by decide)) ?_
    refine Relation.ReflTransGen.head
      (MineStep.exitLoop
        ⟨200, hasher "p" "d" 0 0, 100, [.afterFor, .afterFor], [0, 100]⟩
        ⟨200, hasher "p" "d" 0 0, 100, [.done, .afterFor], [0, 100]⟩
        0 (by decide) (by decide) (by decide)) ?_
    refine Relation.ReflTransGen.single ?_
    exact MineStep.exitLoop
      ⟨200, hasher "p" "d" 0 0, 100, [.done, .afterFor], [0, 100]⟩
      ⟨200, hasher "p" "d" 0 0, 100, [.done, .done], [0, 100]⟩
      1 (by decide) (by decide) (by decide)
  · decide

/-! ## C4 — whole-chain validation -/

/-- `get_block` only ever fails with the wrapped database error. -/
lemma get_block_error_eq (db : Db) (key : String) (e : BlockchainError)
    (h : get_block db key = .error e) : e = .DatabaseError := by
  unfold get_block at h
  rcases hf : db.filter (fun b => b.hash == key) with _ | ⟨x, _ | ⟨y, t⟩⟩ <;> rw [hf] at h
  · exact (Except.error.inj h).symm
  · exact Except.noConfusion h
  · exact (Except.error.inj h).symm

/-- Reduction of one loop iteration when the current block is found and valid. -/
lemma validate_chain_loop_succ_ok (db : Db) (count : Int) (fuel : Nat) (h : String) (k : Int)
    (b : Block) (hgb : get_block db h = .ok b)
    (hcv : check_if_block_valid db b = .ok ()) :
    validate_chain_loop db count (fuel + 1) h k =
      (if b.id = 0 then
        (if k + 1 = count then
          (if b.hash = GENESIS_BLOCK_HASH then some (.ok ())
           else some (.error (.ChainInvalid (.Error "genesis hash invalid."))))
         else some (.error (.ChainInvalid (.Error "invalid chain length."))))
       else validate_chain_loop db count fuel b.prev_hash (k + 1)) := by
  conv_lhs => unfold validate_chain_loop
  simp only [hgb, hcv]

/-- Reduction of one loop iteration when the current block lookup fails: the store error
propagates through `?` without a `ChainInvalid` wrapper. -/
lemma validate_chain_loop_succ_getblock_err (db : Db) (count : Int) (fuel : Nat) (h : String)
    (k : Int) (e : BlockchainError) (hgb : get_block db h = .error e) :
    validate_chain_loop db count (fuel + 1) h k = some (.error e) := by
  unfold validate_chain_loop
  simp only [hgb]

/-- Reduction of one loop iteration when validation of the current block fails. -/
lemma validate_chain_loop_succ_check_err (db : Db) (count : Int) (fuel : Nat) (h : String)
    (k : Int) (b : Block) (err : BlockchainError) (hgb : get_block db h = .ok b)
    (hcv : check_if_block_valid db b = .error err) :
    validate_chain_loop db count (fuel + 1) h k = some (.error (.ChainInvalid err)) := by
  unfold validate_chain_loop
  simp only [hgb, hcv]

/-- A walk visits at least one block. -/
lemma walksTo_ne_nil (db : Db) (h : String) (bs : List Block) (hw : WalksTo db h bs) :
    bs ≠ [] := by
  cases hw <;> simp

/-- The `getLast?` of a cons with a nonempty tail is the tail's. -/
lemma getLast?_cons_of_ne_nil {α : Type} (a : α) (l : List α) (h : l ≠ []) :
    (a :: l).getLast? = l.getLast? := by
  rcases l with _ | ⟨b, t⟩
  · cases h rfl
  · exact List.getLast?_cons_cons

/-- The last block of a walk has id 0. -/
lemma walksTo_getLast_id_zero (db : Db) (h : String) (bs : List Block)
    (hw : WalksTo db h bs) : ∃ g, bs.getLast? = some g ∧ g.id = 0 := by
  induction hw with
  | last h b hgb hid => exact ⟨b, rfl, hid⟩
  | step h b bs hgb hid hw' ih =>
    obtain ⟨g, hg, hgid⟩ := ih
    exact ⟨g, (getLast?_cons_of_ne_nil b bs (walksTo_ne_nil db b.prev_hash bs hw')).trans hg,
      hgid⟩

/-- If the loop accepts, the store contains a validated backward walk of the right length
ending at the genesis hash. -/
lemma loop_ok_walksTo (db : Db) (count : Int) :
    ∀ fuel (h : String) (k : Int),
      validate_chain_loop db count fuel h k = some (.ok ()) →
      ∃ bs, WalksTo db h bs ∧ (∀ b ∈ bs, check_if_block_valid db b = .ok ()) ∧
        k + bs.length = count ∧
        ∃ g, bs.getLast? = some g ∧ g.hash = GENESIS_BLOCK_HASH := by
  intro fuel
  induction fuel with
  | zero =>
    intro h k hloop
    exact absurd hloop (by simp [validate_chain_loop])
  | succ f ih =>
    intro h k hloop
    cases hgb : get_block db h with
    | error e =>
      rw [validate_chain_loop_succ_getblock_err db count f h k e hgb] at hloop
      simp at hloop
    | ok b =>
      cases hcv : check_if_block_valid db b with
      | error err =>
        rw [validate_chain_loop_succ_check_err db count f h k b err hgb hcv] at hloop
        simp at hloop
      | ok u =>
        rcases u
        rw [validate_chain_loop_succ_ok db count f h k b hgb hcv] at hloop
        split_ifs at hloop with hid hcnt hgh
        · refine ⟨[b], WalksTo.last h b hgb hid, ?_, ?_, b, rfl, hgh⟩
          · intro x hx
            rw [List.mem_singleton] at hx
            subst hx
            exact hcv
          · simpa using hcnt
        · simp at hloop
        · simp at hloop
        · obtain ⟨bs', hw', hval', hcnt', g, hg', hgh'⟩ := ih b.prev_hash (k + 1) hloop
          refine ⟨b :: bs', WalksTo.step h b bs' hgb hid hw', ?_, ?_, g, ?_, hgh'⟩
          · intro x hx
            rcases List.mem_cons.mp hx with rfl | hx'
            · exact hcv
            · exact hval' x hx'
          · simp only [List.length_cons]
            push_cast
            omega
          · exact (getLast?_cons_of_ne_nil b bs'
              (walksTo_ne_nil db b.prev_hash bs' hw')).trans hg'

/-- Conversely, a validated walk of the right length ending at the genesis hash makes the
loop accept, given fuel for its length. -/
lemma walksTo_loop_ok (db : Db) (count : Int) (bs : List Block) (h : String)
    (hw : WalksTo db h bs) :
    ∀ (k : Int) (fuel : Nat),
      (∀ b ∈ bs, check_if_block_valid db b = .ok ()) →
      k + bs.length = count →
      (∃ g, bs.getLast? = some g ∧ g.hash = GENESIS_BLOCK_HASH) →
      bs.length ≤ fuel →
      validate_chain_loop db count fuel h k = some (.ok ()) := by
  induction hw with
  | last h b hgb hid =>
    intro k fuel hval hcnt hg hfuel
    rcases fuel with _ | f
    · simp at hfuel
    · rw [validate_chain_loop_succ_ok db count f h k b hgb
        (hval b (List.mem_singleton.mpr rfl)), if_pos hid, if_pos (by simpa using hcnt)]
      obtain ⟨g, hgl, hgh⟩ := hg
      have hbg : b = g := by simpa using hgl
      have hbh : b.hash = GENESIS_BLOCK_HASH := by
        rw [hbg]
        exact hgh
      rw [if_pos hbh]
  | step h b bs' hgb hid hw' ih =>
    intro k fuel hval hcnt hg hfuel
    rcases fuel with _ | f
    · simp at hfuel
    · rw [validate_chain_loop_succ_ok db count f h k b hgb
        (hval b (List.mem_cons_self b bs')), if_neg hid]
      have hne' := walksTo_ne_nil db b.prev_hash bs' hw'
      refine ih (k + 1) f (fun x hx => hval x (List.mem_cons_of_mem b hx)) ?_ ?_ ?_
      · simp only [List.length_cons] at hcnt
        omega
      · obtain ⟨g, hgl, hgh⟩ := hg
        exact ⟨g, ((getLast?_cons_of_ne_nil b bs' hne').symm.trans hgl), hgh⟩
      · have : bs'.length + 1 ≤ f + 1 := by simpa using hfuel
        omega

/-- Every loop failure is either a `ChainInvalid` wrapper or the bare store error of a
failed current-block lookup. -/
lemma loop_error_shape (db : Db) (count : Int) :
    ∀ fuel (h : String) (k : Int) (r : BlockchainError),
      validate_chain_loop db count fuel h k = some (.error r) →
      (∃ e, r = BlockchainError.ChainInvalid e) ∨ r = BlockchainError.DatabaseError := by
  intro fuel
  induction fuel with
  | zero =>
    intro h k r hr
    exact absurd hr (by simp [validate_chain_loop])
  | succ f ih =>
    intro h k r hr
    cases hgb : get_block db h with
    | error e =>
      rw [validate_chain_loop_succ_getblock_err db count f h k e hgb] at hr
      right
      have he : e = r := Except.error.inj (Option.some.inj hr)
      rw [← he]
      exact get_block_error_eq db h e hgb
    | ok b =>
      cases hcv : check_if_block_valid db b with
      | error err =>
        rw [validate_chain_loop_succ_check_err db count f h k b err hgb hcv] at hr
        exact Or.inl ⟨err, (Except.error.inj (Option.some.inj hr)).symm⟩
      | ok u =>
        rcases u
        rw [validate_chain_loop_succ_ok db count f h k b hgb hcv] at hr
        split_ifs at hr with hid hcnt hgh
        · simp at hr
        · exact Or.inl ⟨_, (Except.error.inj (Option.some.inj hr)).symm⟩
        · exact Or.inl ⟨_, (Except.error.inj (Option.some.inj hr)).symm⟩
        · exact ih b.prev_hash (k + 1) r hr

/-- Counterexample for C4: not every failure is wrapped in `ChainInvalid`.  With one stored
id-0 block of hash "x" and a cached latest block of hash "y" and id 0, the count check
passes but the walk's first lookup fails and the bare `DatabaseError` is returned, which no
`ChainInvalid` equals. -/
theorem validate_chain_unwrapped_database_error :
    validate_chain cexDb cexLatest 5 = some (.error .DatabaseError) ∧
    ∀ e, BlockchainError.DatabaseError ≠ BlockchainError.ChainInvalid e :=
  ⟨rfl, fun _ h => BlockchainError.noConfusion h⟩

/-- C4 as amended: `validate_chain` accepts exactly when the stored count equals
`latest.id + 1` and the backward walk from `latest.hash` validates every visited block,
terminating at an id-0 block with the genesis hash after exactly `count` blocks; every
failure is a `ChainInvalid` wrapping the nested reason, *except* that a failed lookup of
the current walk block propagates as the bare store (`DatabaseError`) failure. -/
theorem validate_chain_ok_characterization (db : Db) (latest : Block) (fuel : Nat) :
    (validate_chain db latest fuel = some (.ok ()) →
      ((db.length : Int) = latest.id + 1 ∧
       ∃ bs, WalksTo db latest.hash bs ∧ (∀ b ∈ bs, check_if_block_valid db b = .ok ()) ∧
         bs.length = db.length ∧
         ∃ g, bs.getLast? = some g ∧ g.id = 0 ∧ g.hash = GENESIS_BLOCK_HASH)) ∧
    (((db.length : Int) = latest.id + 1 ∧
      ∃ bs, WalksTo db latest.hash bs ∧ (∀ b ∈ bs, check_if_block_valid db b = .ok ()) ∧
        bs.length = db.length ∧
        ∃ g, bs.getLast? = some g ∧ g.hash = GENESIS_BLOCK_HASH) →
      db.length ≤ fuel →
      validate_chain db latest fuel = some (.ok ())) ∧
    (∀ r, validate_chain db latest fuel = some (.error r) →
      (∃ e, r = BlockchainError.ChainInvalid e) ∨ r = BlockchainError.DatabaseError) := by
  refine ⟨fun hok => ?_, fun hcond hfuel => ?_, fun r hr => ?_⟩
  · unfold validate_chain at hok
    by_cases hc : (db.length : Int) = latest.id + 1
    · rw [if_neg (not_not_intro hc)] at hok
      obtain ⟨bs, hw, hval, hcnt, g, hg, hgh⟩ := loop_ok_walksTo db _ fuel latest.hash 0 hok
      have hlen : bs.length = db.length := by
        omega
      obtain ⟨g', hg', hgid'⟩ := walksTo_getLast_id_zero db latest.hash bs hw
      have : g' = g := Option.some.inj (hg'.symm.trans hg)
      exact ⟨hc, bs, hw, hval, hlen, g, hg, this ▸ hgid', hgh⟩
    · exact absurd hok (by rw [if_pos hc]; simp)
  · obtain ⟨hc, bs, hw, hval, hlen, g, hg, hgh⟩ := hcond
    unfold validate_chain
    rw [if_neg (not_not_intro hc)]
    refine walksTo_loop_ok db _ bs latest.hash hw 0 fuel hval ?_ ⟨g, hg, hgh⟩ ?_
    · omega
    · omega
  · unfold validate_chain at hr
    by_cases hc : (db.length : Int) = latest.id + 1
    · rw [if_neg (not_not_intro hc)] at hr
      exact loop_error_shape db _ fuel latest.hash 0 r hr
    · rw [if_pos hc] at hr
      exact Or.inl ⟨_, (Except.error.inj (Option.some.inj hr)).symm⟩

/-- Witness for C4: a freshly initialized store holding only the genesis block validates. -/
theorem validate_chain_ok_characterization_witness :
    validate_chain [create_genesis] create_genesis 1 = some (.ok ()) :=
  (validate_chain_ok_characterization [create_genesis] create_genesis 1).2.1
    ⟨by decide, [create_genesis],
     WalksTo.last create_genesis.hash create_genesis rfl rfl,
     fun b hb => by
       rw [List.mem_singleton] at hb
       subst hb
       rfl,
     rfl, create_genesis, rfl, rfl⟩ (by decide)

/-! ## C5 — full chain replacement -/

/-- A successful insert appends the row. -/
lemma insertBlock_ok_append (db : Db) (b : Block) (db2 : Db)
    (h : insertBlock db b = .ok db2) : db2 = db ++ [b] := by
  unfold insertBlock at h
  split at h
  · cases h
  · exact (Except.ok.inj h).symm

/-- A successful insert loop appends exactly the given rows, in order. -/
lemma updateLoop_ok_db (total : Nat) (bs : List Block) :
    ∀ (db0 : Db) (latest : Block) (idx : Nat) (db2 : Db) (latest2 : Block),
      updateLoop total db0 latest idx bs = (.ok (), db2, latest2) → db2 = db0 ++ bs := by
  induction bs with
  | nil =>
    intro db0 latest idx db2 latest2 h
    unfold updateLoop at h
    simp only [Prod.mk.injEq] at h
    rw [← h.2.1]
    simp
  | cons b rest ih =>
    intro db0 latest idx db2 latest2 h
    unfold updateLoop at h
    cases hins : insertBlock db0 b with
    | error e =>
      rw [hins] at h
      simp at h
    | ok db' =>
      rw [hins] at h
      rw [ih db' _ (idx + 1) db2 latest2 h, insertBlock_ok_append db0 b db' hins]
      simp

/-- On success over a nonempty row list whose indices end at `total - 1`, the cursor ends
at the last row. -/
lemma updateLoop_ok_latest (total : Nat) (bs : List Block) :
    ∀ (db0 : Db) (latest : Block) (idx : Nat) (db2 : Db) (latest2 : Block),
      bs ≠ [] → idx + bs.length = total →
      updateLoop total db0 latest idx bs = (.ok (), db2, latest2) →
      bs.getLast? = some latest2 := by
  induction bs with
  | nil =>
    intro _ _ _ _ _ hne
    cases hne rfl
  | cons b rest ih =>
    intro db0 latest idx db2 latest2 _ hlen h
    unfold updateLoop at h
    cases hins : insertBlock db0 b with
    | error e =>
      rw [hins] at h
      simp at h
    | ok db' =>
      rw [hins] at h
      rcases rest with _ | ⟨c, cs⟩
      · unfold updateLoop at h
        simp only [Prod.mk.injEq] at h
        have hidx : idx = total - 1 := by
          simp only [List.length_cons, List.length_nil] at hlen
          omega
        rw [if_pos hidx] at h
        rw [← h.2.2]
        rfl
      · have hlen' : (idx + 1) + (c :: cs).length = total := by
          simp only [List.length_cons] at hlen ⊢
          omega
        rw [getLast?_cons_of_ne_nil b _ (by simp)]
        exact ih db' _ (idx + 1) db2 latest2 (by simp) hlen' h

/-- In a list sorted by ascending id, every member's id is at most the last one's. -/
lemma sorted_le_getLast (l : List Block) (hs : List.Sorted blockLe l) :
    ∀ (x : Block), l.getLast? = some x → ∀ b ∈ l, b.id ≤ x.id := by
  induction l with
  | nil =>
    intro x hx
    simp at hx
  | cons a t ih =>
    intro x hx b hb
    rcases t with _ | ⟨c, cs⟩
    · have hax : a = x := by simpa using hx
      have hba : b = a := by simpa using hb
      rw [hba, hax]
    · rw [getLast?_cons_of_ne_nil a _ (by simp)] at hx
      rw [List.sorted_cons] at hs
      rcases List.mem_cons.mp hb with rfl | hb'
      · exact hs.1 x (List.mem_of_getLast?_eq_some hx)
      · exact ih hs.2 x hx b hb'

/-- C5: after a successful `update` with a nonempty chain `C`, `get_chain` returns exactly
`C` sorted by ascending id, and the in-memory cursor is the last element of the sorted
list, which carries the greatest id of `C`. -/
theorem update_nonempty_sorted_latest (db : Db) (latest : Block) (chain : List Block)
    (db2 : Db) (latest2 : Block) (hne : chain ≠ [])
    (hok : update db latest chain = (.ok (), db2, latest2)) :
    get_chain db2 = sortById chain ∧
    (sortById chain).getLast? = some latest2 ∧
    ∀ b ∈ chain, b.id ≤ latest2.id := by
  have hsne : sortById chain ≠ [] := by
    intro h0
    apply hne
    have hl := congrArg List.length h0
    rw [sortById, List.length_insertionSort] at hl
    exact List.length_eq_zero.mp hl
  have hdb2 : db2 = sortById chain := by
    have h := updateLoop_ok_db (sortById chain).length (sortById chain) [] latest 0
      db2 latest2 hok
    simpa using h
  have hlast : (sortById chain).getLast? = some latest2 :=
    updateLoop_ok_latest (sortById chain).length (sortById chain) [] latest 0 db2 latest2
      hsne (by simp) hok
  have hsorted : List.Sorted blockLe (sortById chain) :=
    List.sorted_insertionSort blockLe chain
  refine ⟨?_, hlast, ?_⟩
  · rw [hdb2]
    exact hsorted.insertionSort_eq
  · intro b hb
    exact sorted_le_getLast (sortById chain) hsorted latest2 hlast b
      ((List.mem_insertionSort blockLe).mpr hb)

/-- Witness for C5: replacing with the out-of-order two-block chain `[blkB, blkA]`. -/
theorem update_nonempty_sorted_latest_witness :
    get_chain [blkA, blkB] = sortById [blkB, blkA] ∧
    (sortById [blkB, blkA]).getLast? = some blkB ∧
    ∀ b ∈ [blkB, blkA], b.id ≤ blkB.id :=
  update_nonempty_sorted_latest [] create_genesis [blkB, blkA] [blkA, blkB] blkB
    (by simp) rfl

end RustBlockchain
